import Mathlib

/-!
Verification of the gitdb compound pack store (`gitdb/db/pack.py`) and the
locked-file utilities (`gitdb/util.py`), shallowly embedded in Lean.

Digests are modelled as lists of byte values (`List Nat`).  A `PackEntityM`
models the external PackEntity collaborator through the interface the store
uses: a pack path, the pack byte size, the index query `sha_to_index`
(which may fail, modelling an exception raised while querying the index;
the failure payload is a message string), the index query for abbreviated
digests together with its explicit canonical hex length, and `sha` mapping
a slot to the stored full digest.
-/

namespace Gitdb

/-- Model of the PackEntity collaborator, as used by `PackedDB`.
`sha_to_index` returns `.error msg` when querying this entity's index
raises, `.ok none` when the digest is absent, `.ok (some slot)` on a hit. -/
structure PackEntityM where
  path : String
  packSize : Nat
  sha_to_index : List Nat → Except String (Option Nat)
  part_sha_to_index : List Nat → Nat → Option Nat
  shaAt : Nat → List Nat

/-- One registry cell of `PackedDB._entities`: the source stores the list
`[hits, entity, entity.index().sha_to_index]`; the bound method is part of
the entity model here. -/
structure Entry where
  hits : Nat
  entity : PackEntityM

/-- The mutable state of a `PackedDB` instance: root path, the global hit
counter `_hit_count`, the last observed root mtime `_st_mtime`, and the
registry `_entities`. -/
structure PackedDB where
  root_path : String
  hit_count : Nat
  st_mtime : Nat
  entities : List Entry

/-- The filesystem as seen by `update_cache`: the root directory's current
modification time and the pack files found by
`glob(root/"pack-*.pack")`, each already wrapped as the entity that
`PackEntity(mman, path)` would produce (glob yields each path once). -/
structure Disk where
  mtime : Nat
  packs : List PackEntityM

/-- Errors surfaced by the store: `badObject` models `BadObject` (object
not found), `ambiguousObjectName` models `AmbiguousObjectName`,
`entityFailure` models an exception raised inside one entity's index query
propagating out of the store, `unsupportedOperation` models
`UnsupportedOperation`. -/
inductive PDBError
  | badObject (sha : List Nat)
  | ambiguousObjectName (sha : List Nat)
  | entityFailure (msg : String)
  | unsupportedOperation
deriving DecidableEq

/-- `PackedDB._sort_interval = 500`. -/
def sort_interval : Nat := 500

/-- Insertion step of the stable descending sort on `hits`
(`self._entities.sort(key=lambda l: l[0], reverse=True)`). -/
def insertEntry (x : Entry) : List Entry → List Entry
  | [] => [x]
  | y :: ys => if y.hits < x.hits then x :: y :: ys else y :: insertEntry x ys

/-- `PackedDB._sort_entities`: stable sort of the registry by `hits`
descending, as Python's stable `list.sort(..., reverse=True)`. -/
def sort_entities (es : List Entry) : List Entry := es.foldr insertEntry []

/-- The scan loop of `PackedDB._pack_info`: walk the registry in order;
propagate a failure raised by an entity's index query; on the first hit
increment that cell's hit counter and return the entity and slot together
with the updated registry; otherwise continue. -/
def packInfoScan (sha : List Nat) : List Entry → Except String (Option (List Entry × PackEntityM × Nat))
  | [] => .ok none
  | e :: es =>
    match e.entity.sha_to_index sha with
    | .error msg => .error msg
    | .ok (some idx) => .ok (some ({ e with hits := e.hits + 1 } :: es, e.entity, idx))
    | .ok none =>
      match packInfoScan sha es with
      | .error msg => .error msg
      | .ok none => .ok none
      | .ok (some (es', ent, idx)) => .ok (some (e :: es', ent, idx))

/-- Result of one `_pack_info` query: the returned value or raised error,
the state after the query, and whether this query re-sorted the registry
(instrumenting the `_sort_entities()` call). -/
structure PackInfoResult where
  res : Except PDBError (PackEntityM × Nat)
  db : PackedDB
  didSort : Bool

/-- `PackedDB._pack_info(sha)`: if `_hit_count % _sort_interval == 0`,
re-sort the registry; then scan the registry in order; the first entity
whose index holds `sha` gets its cell counter incremented, the global
`_hit_count` is incremented and `(entity, slot)` is returned; an exception
from an entity's index query propagates; exhaustion raises
`BadObject(sha)`. -/
def pack_info (s : PackedDB) (sha : List Nat) : PackInfoResult :=
  let doSort : Bool := s.hit_count % sort_interval = 0
  let ents := if doSort then sort_entities s.entities else s.entities
  match packInfoScan sha ents with
  | .error msg =>
    ⟨.error (.entityFailure msg), { s with entities := ents }, doSort⟩
  | .ok none =>
    ⟨.error (.badObject sha), { s with entities := ents }, doSort⟩
  | .ok (some (ents', ent, idx)) =>
    ⟨.ok (ent, idx), { s with entities := ents', hit_count := s.hit_count + 1 }, doSort⟩

/-- An entity with constant replies, used to build concrete stores. -/
def constEntity (path : String) (sz : Nat) (r : Except String (Option Nat))
    (pr : Option Nat) (d : List Nat) : PackEntityM :=
  { path := path, packSize := sz, sha_to_index := fun _ => r,
    part_sha_to_index := fun _ _ => pr, shaAt := fun _ => d }

/-- Result of `update_cache`: the returned boolean, the state after the
call, and whether the call listed the pack directory (instrumenting the
`glob.glob` call that the early mtime return skips). -/
structure UpdateResult where
  changed : Bool
  db : PackedDB
  listed : Bool

/-- The removal step of `update_cache`: find the first registry cell whose
pack path equals the vanished file and delete it (the source locates
`del_index` by a linear scan and `del`s it; the scanned file always comes
from the registry's own path set, so a miss cannot occur there). -/
def removeFirstEntry (es : List Entry) (f : String) : List Entry :=
  match es with
  | [] => []
  | e :: es => if e.entity.path = f then es else e :: removeFirstEntry es f

/-- `PackedDB.update_cache(force)`: stat the root; if not forced and the
root mtime has not increased past `_st_mtime`, return `False` without
listing the directory.  Otherwise store the new mtime, glob the pack
files, append a fresh cell (hit counter seeded with the pack byte size)
for every file not yet registered, delete the first matching cell for
every registered path no longer on disk (the source iterates the set
`our_pack_files - pack_files`; `dedup` models that set), re-sort by hit
count descending, and return `True`. -/
def update_cache (force : Bool) (s : PackedDB) (d : Disk) : UpdateResult :=
  if force = false ∧ d.mtime ≤ s.st_mtime then ⟨false, s, false⟩
  else
    let s1 : PackedDB := { s with st_mtime := d.mtime }
    let packFiles := d.packs.map (fun p => p.path)
    let ourFiles := s1.entities.map (fun e => e.entity.path)
    let newPacks := d.packs.filter (fun p => decide (p.path ∉ ourFiles))
    let ents1 := s1.entities ++ newPacks.map (fun p => ⟨p.packSize, p⟩)
    let removedFiles := (ourFiles.filter (fun f => decide (f ∉ packFiles))).dedup
    let ents2 := removedFiles.foldl removeFirstEntry ents1
    ⟨true, { s1 with entities := sort_entities ents2 }, true⟩

/-- Python truthiness of the `candidate` variable of
`partial_to_complete_sha`: `None` and the empty byte string are falsy, a
non-empty digest is truthy. -/
def pyTruthyOpt : Option (List Nat) → Bool
  | none => false
  | some l => !l.isEmpty

/-- The scan loop of `PackedDB.partial_to_complete_sha`: walk every
registry cell; where the entity's index reports a slot for the
abbreviated digest, read the full digest at that slot; raise
`AmbiguousObjectName` when a truthy previous candidate differs from it,
else record it and continue.  Returns the final candidate. -/
def partLoop (pBytes : List Nat) (n : Nat) :
    Option (List Nat) → List Entry → Except PDBError (Option (List Nat))
  | cand, [] => .ok cand
  | cand, e :: es =>
    match e.entity.part_sha_to_index pBytes n with
    | none => partLoop pBytes n cand es
    | some i =>
      let sha := e.entity.shaAt i
      if pyTruthyOpt cand = true ∧ cand ≠ some sha then
        .error (.ambiguousObjectName pBytes)
      else partLoop pBytes n (some sha) es

/-- `PackedDB.partial_to_complete_sha(partial_binsha, canonical_length)`:
run the scan over all cells; a truthy final candidate is returned,
otherwise `BadObject` is raised. -/
def partial_to_complete_sha (s : PackedDB) (pBytes : List Nat) (n : Nat) :
    Except PDBError (List Nat) :=
  match partLoop pBytes n none s.entities with
  | .error e => .error e
  | .ok cand => if pyTruthyOpt cand then .ok (cand.getD []) else .error (.badObject pBytes)

/-- The full digests matching the abbreviated digest, per registry cell,
in registry order: the digest at the slot each entity's index reports. -/
def partMatches (pBytes : List Nat) (n : Nat) (es : List Entry) : List (List Nat) :=
  es.filterMap (fun e => (e.entity.part_sha_to_index pBytes n).map e.entity.shaAt)

/-!
Locked-file transactions (`gitdb/util.py`, class `LockedFD`).

The filesystem is an association list from paths to file data (contents
and permission bits); each path occurs at most once by construction.  The
`LockedFD` state mirrors the slots `_filepath`, `_fd` (modelled as the
boolean "a descriptor is currently held") and `_write`.
-/

/-- A file on disk: its byte contents and its permission mode bits. -/
structure FileData where
  contents : List Nat
  mode : Nat
deriving DecidableEq

/-- The filesystem visible to `LockedFD`: a finite map from paths to
files, kept as an association list with unique keys. -/
def FS := List (String × FileData)

instance : DecidableEq FS := by unfold FS; infer_instance

/-- Look a path up in the filesystem. -/
def fsLookup : FS → String → Option FileData
  | [], _ => none
  | (q, d) :: fs, p => if q = p then some d else fsLookup fs p

/-- Delete a path (`os.remove`); removes every binding of the key, of
which there is at most one. -/
def fsErase : FS → String → FS
  | [], _ => []
  | (q, d) :: fs, p => if q = p then fsErase fs p else (q, d) :: fsErase fs p

/-- Create or overwrite a file at a path. -/
def fsSet (fs : FS) (p : String) (d : FileData) : FS :=
  (p, d) :: fsErase fs p

/-- `os.chmod(p, m)`: update the mode bits of an existing file. -/
def fsChmod (fs : FS) (p : String) (m : Nat) : FS :=
  match fsLookup fs p with
  | some d => fsSet fs p ⟨d.contents, m⟩
  | none => fs

/-- State of a `LockedFD` instance: the immutable `_filepath`, whether a
descriptor is held (`_fd is not None`), and the `_write` slot (`none`
before `open`, then the requested mode). -/
structure LockedFD where
  filepath : String
  fd : Bool
  write : Option Bool
deriving DecidableEq

/-- Errors of the transaction protocol: `usageError` models the
`AssertionError` raised on protocol misuse, `lockUnavailable` the
`IOError` raised when the lock file already exists, `osError` a failing
`os` call (e.g. opening a missing target for reading). -/
inductive LFDError
  | usageError
  | lockUnavailable
  | osError
deriving DecidableEq

/-- Outcome of one `LockedFD` operation: the raised error if any, the
instance state after the call, and the filesystem after the call. -/
structure LFDResult where
  err : Option LFDError
  lfd : LockedFD
  fs : FS
deriving DecidableEq

/-- `LockedFD._lockfilepath()`: the lock is `<filepath>.lock`. -/
def lockPath (p : String) : String := p ++ ".lock"

/-- `LockedFD.open(write)`: a second call raises; `_write` is assigned
before the lock attempt; the lock file is created exclusively with mode
`0o600` (an existing lock raises `IOError`); in write mode the lock
descriptor is kept as `_fd`; in read mode the lock descriptor is closed
at once and the real target is opened read-only, deleting the lock and
re-raising when the target cannot be opened. -/
def LockedFD.openFD (l : LockedFD) (fs : FS) (write : Bool) : LFDResult :=
  if l.write ≠ none then ⟨some .usageError, l, fs⟩
  else
    let l1 : LockedFD := { l with write := some write }
    if (fsLookup fs (lockPath l1.filepath)).isSome then ⟨some .lockUnavailable, l1, fs⟩
    else
      let fs1 := fsSet fs (lockPath l1.filepath) ⟨[], 0o600⟩
      if write then ⟨none, { l1 with fd := true }, fs1⟩
      else
        match fsLookup fs1 l1.filepath with
        | none => ⟨some .osError, l1, fsErase fs1 (lockPath l1.filepath)⟩
        | some _ => ⟨none, { l1 with fd := true }, fs1⟩

/-- `os.write(fd, bytes)` on the descriptor returned by a write-mode
`open`: the descriptor is the lock file's, so the bytes accumulate in the
lock file, not in the real target. -/
def lfdWrite (l : LockedFD) (fs : FS) (bytes : List Nat) : FS :=
  match fsLookup fs (lockPath l.filepath) with
  | some d => fsSet fs (lockPath l.filepath) ⟨d.contents ++ bytes, d.mode⟩
  | none => fs

/-- `LockedFD._end_writing(successful)`: raises if `open` was never
called; returns silently when no descriptor is held; otherwise closes the
descriptor and, for a successful write, renames the lock file onto the
real path (on Windows, removing an existing destination first, since
rename does not overwrite there) and chmods the result to `0o644`; in
every other case deletes the lock file. -/
def end_writing (isWin : Bool) (l : LockedFD) (fs : FS) (successful : Bool) : LFDResult :=
  match l.write with
  | none => ⟨some .usageError, l, fs⟩
  | some w =>
    if l.fd = false then ⟨none, l, fs⟩
    else
      let l1 : LockedFD := { l with fd := false }
      if w = true ∧ successful = true then
        let fsA := if isWin ∧ (fsLookup fs l1.filepath).isSome
                   then fsErase fs l1.filepath else fs
        match fsLookup fsA (lockPath l1.filepath) with
        | none => ⟨some .osError, l1, fsA⟩
        | some d =>
          let fsB := fsErase fsA (lockPath l1.filepath)
          let fsC := fsSet fsB l1.filepath d
          ⟨none, l1, fsChmod fsC l1.filepath 0o644⟩
      else
        match fsLookup fs (lockPath l1.filepath) with
        | none => ⟨some .osError, l1, fs⟩
        | some _ => ⟨none, l1, fsErase fs (lockPath l1.filepath)⟩

/-- `LockedFD.commit()` = `_end_writing(successful=True)`. -/
def LockedFD.commit (isWin : Bool) (l : LockedFD) (fs : FS) : LFDResult :=
  end_writing isWin l fs true

/-- `LockedFD.rollback()` = `_end_writing(successful=False)`. -/
def LockedFD.rollback (isWin : Bool) (l : LockedFD) (fs : FS) : LFDResult :=
  end_writing isWin l fs false

/-- `LockedFD.__del__`: roll back when a descriptor is still held. -/
def lfdDel (isWin : Bool) (l : LockedFD) (fs : FS) : LFDResult :=
  if l.fd then LockedFD.rollback isWin l fs else ⟨none, l, fs⟩

/-!
Memory allocation (`gitdb/util.py`, `allocate_memory`).
-/

/-- A byte buffer with the file protocol: either an OS anonymous
read-write mapping of a size, or a heap-backed buffer
(`_RandomAccessBytesIO`) with explicit contents. -/
inductive MemBuffer
  | mapped (size : Nat)
  | heap (contents : List Nat)
deriving DecidableEq

/-- Length of a buffer. -/
def MemBuffer.length : MemBuffer → Nat
  | mapped n => n
  | heap c => c.length

/-- Result of `allocate_memory`: the buffer and whether an OS-level
`mmap` call was attempted (instrumenting the `mmap.mmap(-1, size)`
call). -/
structure AllocResult where
  buf : MemBuffer
  attemptedMmap : Bool
deriving DecidableEq

/-- `allocate_memory(size)`: size 0 yields an empty heap buffer without
touching `mmap`; otherwise `mmap.mmap(-1, size)` is attempted — the
platform oracle `mmapOK` tells whether it succeeds — and on
`EnvironmentError` a zero-filled heap buffer of the same size is
returned. -/
def allocate_memory (mmapOK : Nat → Bool) (size : Nat) : AllocResult :=
  if size = 0 then ⟨.heap [], false⟩
  else if mmapOK size then ⟨.mapped size, true⟩
  else ⟨.heap (List.replicate size 0), true⟩

/-! Helper lemmas about paths and the filesystem map. -/

theorem lockPath_ne (p : String) : lockPath p ≠ p := by
  intro h
  have h2 := congrArg String.length h
  rw [lockPath, String.length_append] at h2
  have h3 : (".lock" : String).length = 5 := by decide
  omega

theorem target_ne_lockPath (p : String) : p ≠ lockPath p :=
  fun h => lockPath_ne p h.symm

theorem fsLookup_fsErase_self (fs : FS) (p : String) :
    fsLookup (fsErase fs p) p = none := by
  induction fs with
  | nil => rfl
  | cons hd tl ih =>
    obtain ⟨q, d⟩ := hd
    by_cases h : q = p
    · simp [fsErase, h, ih]
    · simp [fsErase, fsLookup, h, ih]

theorem fsLookup_fsErase_ne (fs : FS) (p q : String) (h : q ≠ p) :
    fsLookup (fsErase fs p) q = fsLookup fs q := by
  have hpq : p ≠ q := fun hq => h hq.symm
  induction fs with
  | nil => rfl
  | cons hd tl ih =>
    obtain ⟨r, d⟩ := hd
    by_cases hr : r = p
    · subst hr
      simp [fsErase, fsLookup, hpq, ih]
    · simp [fsErase, fsLookup, hr, ih]

theorem fsLookup_fsSet_self (fs : FS) (p : String) (d : FileData) :
    fsLookup (fsSet fs p d) p = some d := by
  simp [fsSet, fsLookup]

theorem fsLookup_fsSet_ne (fs : FS) (p q : String) (d : FileData) (h : q ≠ p) :
    fsLookup (fsSet fs p d) q = fsLookup fs q := by
  have : p ≠ q := fun hq => h hq.symm
  simp [fsSet, fsLookup, this, fsLookup_fsErase_ne fs p q h]

/-! Helper lemmas about the registry sort. -/

theorem insertEntry_perm (x : Entry) (es : List Entry) :
    List.Perm (insertEntry x es) (x :: es) := by
  induction es with
  | nil => exact List.Perm.refl _
  | cons y ys ih =>
    by_cases h : y.hits < x.hits
    · simp [insertEntry, h]
    · simp only [insertEntry, h, if_false]
      exact ((ih.cons y).trans (List.Perm.swap x y ys))

theorem sort_entities_perm (es : List Entry) :
    List.Perm (sort_entities es) es := by
  induction es with
  | nil => exact List.Perm.refl _
  | cons e es ih =>
    have h1 : sort_entities (e :: es) = insertEntry e (sort_entities es) := rfl
    rw [h1]
    exact (insertEntry_perm e (sort_entities es)).trans (ih.cons e)

theorem mem_sort_entities {x : Entry} {es : List Entry} :
    x ∈ sort_entities es ↔ x ∈ es :=
  (sort_entities_perm es).mem_iff

theorem insertEntry_pairwise (x : Entry) (es : List Entry)
    (h : es.Pairwise (fun a b => b.hits ≤ a.hits)) :
    (insertEntry x es).Pairwise (fun a b => b.hits ≤ a.hits) := by
  induction es with
  | nil => simp [insertEntry]
  | cons y ys ih =>
    rcases List.pairwise_cons.mp h with ⟨hy, hys⟩
    by_cases hlt : y.hits < x.hits
    · simp only [insertEntry, hlt, if_true]
      refine List.pairwise_cons.mpr ⟨?_, h⟩
      intro z hz
      rcases List.mem_cons.mp hz with hz | hz
      · subst hz; omega
      · have := hy z hz; omega
    · simp only [insertEntry, hlt, if_false]
      refine List.pairwise_cons.mpr ⟨?_, ih hys⟩
      intro z hz
      rcases (insertEntry_perm x ys).mem_iff.mp hz with hz'
      rcases List.mem_cons.mp hz' with hz' | hz'
      · subst hz'; omega
      · exact hy z hz'

theorem sort_entities_sorted (es : List Entry) :
    (sort_entities es).Pairwise (fun a b => b.hits ≤ a.hits) := by
  induction es with
  | nil => simp [sort_entities]
  | cons e es ih => exact insertEntry_pairwise e (sort_entities es) ih

/-! Helper lemmas about the resolution scan. -/

theorem packInfoScan_all_miss (sha : List Nat) (es : List Entry)
    (h : ∀ e ∈ es, e.entity.sha_to_index sha = .ok none) :
    packInfoScan sha es = .ok none := by
  induction es with
  | nil => rfl
  | cons e es ih =>
    have he := h e (List.mem_cons_self e es)
    have hrest := ih (fun e' he' => h e' (List.mem_cons_of_mem e he'))
    simp [packInfoScan, he, hrest]

theorem packInfoScan_front_miss_hit (sha : List Nat) (front back : List Entry)
    (e : Entry) (idx : Nat)
    (hf : ∀ e' ∈ front, e'.entity.sha_to_index sha = .ok none)
    (he : e.entity.sha_to_index sha = .ok (some idx)) :
    packInfoScan sha (front ++ e :: back) =
      .ok (some (front ++ { e with hits := e.hits + 1 } :: back, e.entity, idx)) := by
  induction front with
  | nil => simp [packInfoScan, he]
  | cons f fs ih =>
    have hfm := hf f (List.mem_cons_self f fs)
    have hrest := ih (fun e' he' => hf e' (List.mem_cons_of_mem f he'))
    simp [packInfoScan, hfm, hrest]

theorem packInfoScan_front_miss_error (sha : List Nat) (front back : List Entry)
    (e : Entry) (msg : String)
    (hf : ∀ e' ∈ front, e'.entity.sha_to_index sha = .ok none)
    (he : e.entity.sha_to_index sha = .error msg) :
    packInfoScan sha (front ++ e :: back) = .error msg := by
  induction front with
  | nil => simp [packInfoScan, he]
  | cons f fs ih =>
    have hfm := hf f (List.mem_cons_self f fs)
    have hrest := ih (fun e' he' => hf e' (List.mem_cons_of_mem f he'))
    simp [packInfoScan, hfm, hrest]

/-! Helper lemmas about the abbreviated-digest scan. -/

theorem partLoop_all_eq (pBytes : List Nat) (n : Nat) (c : List Nat)
    (es : List Entry)
    (hall : ∀ d ∈ partMatches pBytes n es, d = c) :
    partLoop pBytes n (some c) es = .ok (some c) := by
  induction es with
  | nil => rfl
  | cons e es ih =>
    cases hm : e.entity.part_sha_to_index pBytes n with
    | none =>
      have : partMatches pBytes n (e :: es) = partMatches pBytes n es := by
        simp [partMatches, hm]
      simp only [partLoop, hm]
      exact ih (fun d hd => hall d (by rw [this]; exact hd))
    | some i =>
      have hsha : e.entity.shaAt i ∈ partMatches pBytes n (e :: es) := by
        simp [partMatches, hm]
      have heq : e.entity.shaAt i = c := hall _ hsha
      have hcond : ¬(pyTruthyOpt (some c) = true ∧ (some c : Option (List Nat)) ≠ some (e.entity.shaAt i)) := by
        rw [heq]; simp
      simp only [partLoop, hm, heq]
      rw [if_neg (by simp)]
      refine ih ?_
      intro d hd
      have hcons : partMatches pBytes n (e :: es) = e.entity.shaAt i :: partMatches pBytes n es := by
        simp [partMatches, hm]
      exact hall d (by rw [hcons]; exact List.mem_cons_of_mem _ hd)

theorem partLoop_some_ambiguous (pBytes : List Nat) (n : Nat) (c : List Nat)
    (es : List Entry) (hc : c ≠ [])
    (hne : ∀ d ∈ partMatches pBytes n es, d ≠ [])
    (hdiff : ∃ d ∈ partMatches pBytes n es, d ≠ c) :
    partLoop pBytes n (some c) es = .error (.ambiguousObjectName pBytes) := by
  induction es generalizing c with
  | nil => simp [partMatches] at hdiff
  | cons e es ih =>
    cases hm : e.entity.part_sha_to_index pBytes n with
    | none =>
      have hsame : partMatches pBytes n (e :: es) = partMatches pBytes n es := by
        simp [partMatches, hm]
      rw [hsame] at hdiff hne
      simp only [partLoop, hm]
      exact ih c hc hne hdiff
    | some i =>
      have hcons : partMatches pBytes n (e :: es) = e.entity.shaAt i :: partMatches pBytes n es := by
        simp [partMatches, hm]
      rw [hcons] at hdiff hne
      by_cases heq : e.entity.shaAt i = c
      · have hcond : ¬(pyTruthyOpt (some c) = true ∧ (some c : Option (List Nat)) ≠ some (e.entity.shaAt i)) := by
          rw [heq]; simp
        simp only [partLoop, hm, heq]
        rw [if_neg (by simp)]
        refine ih c hc (fun d hd => hne d (List.mem_cons_of_mem _ hd)) ?_
        rcases hdiff with ⟨d, hd, hdc⟩
        rcases List.mem_cons.mp hd with hd' | hd'
        · exact absurd (hd'.trans heq) hdc
        · exact ⟨d, hd', hdc⟩
      · have hcond : pyTruthyOpt (some c) = true ∧ (some c : Option (List Nat)) ≠ some (e.entity.shaAt i) := by
          constructor
          · simp [pyTruthyOpt, hc]
          · intro hcontr
            exact heq (Option.some.inj hcontr).symm
        simp [partLoop, hm, hcond]

theorem partLoop_none_empty (pBytes : List Nat) (n : Nat) (es : List Entry)
    (h : partMatches pBytes n es = []) :
    partLoop pBytes n none es = .ok none := by
  induction es with
  | nil => rfl
  | cons e es ih =>
    cases hm : e.entity.part_sha_to_index pBytes n with
    | none =>
      have hsame : partMatches pBytes n (e :: es) = partMatches pBytes n es := by
        simp [partMatches, hm]
      rw [hsame] at h
      simp only [partLoop, hm]
      exact ih h
    | some i =>
      have : e.entity.shaAt i ∈ partMatches pBytes n (e :: es) := by
        simp [partMatches, hm]
      rw [h] at this
      exact absurd this (List.not_mem_nil _)

theorem partLoop_none_all_eq (pBytes : List Nat) (n : Nat) (d : List Nat)
    (es : List Entry)
    (hmem : d ∈ partMatches pBytes n es)
    (hall : ∀ x ∈ partMatches pBytes n es, x = d) :
    partLoop pBytes n none es = .ok (some d) := by
  induction es with
  | nil => simp [partMatches] at hmem
  | cons e es ih =>
    cases hm : e.entity.part_sha_to_index pBytes n with
    | none =>
      have hsame : partMatches pBytes n (e :: es) = partMatches pBytes n es := by
        simp [partMatches, hm]
      rw [hsame] at hmem hall
      simp only [partLoop, hm]
      exact ih hmem hall
    | some i =>
      have hcons : partMatches pBytes n (e :: es) = e.entity.shaAt i :: partMatches pBytes n es := by
        simp [partMatches, hm]
      rw [hcons] at hmem hall
      have heq : e.entity.shaAt i = d := hall _ (List.mem_cons_self _ _)
      have hcond : ¬(pyTruthyOpt (none : Option (List Nat)) = true ∧ (none : Option (List Nat)) ≠ some (e.entity.shaAt i)) := by
        simp [pyTruthyOpt]
      simp only [partLoop, hm, if_neg hcond, heq]
      exact partLoop_all_eq pBytes n d es
        (fun x hx => hall x (List.mem_cons_of_mem _ hx))

theorem partLoop_none_ambiguous (pBytes : List Nat) (n : Nat) (es : List Entry)
    (hne : ∀ x ∈ partMatches pBytes n es, x ≠ [])
    (hdiff : ∃ d₁ ∈ partMatches pBytes n es, ∃ d₂ ∈ partMatches pBytes n es, d₁ ≠ d₂) :
    partLoop pBytes n none es = .error (.ambiguousObjectName pBytes) := by
  induction es with
  | nil => simp [partMatches] at hdiff
  | cons e es ih =>
    cases hm : e.entity.part_sha_to_index pBytes n with
    | none =>
      have hsame : partMatches pBytes n (e :: es) = partMatches pBytes n es := by
        simp [partMatches, hm]
      rw [hsame] at hne hdiff
      simp only [partLoop, hm]
      exact ih hne hdiff
    | some i =>
      have hcons : partMatches pBytes n (e :: es) = e.entity.shaAt i :: partMatches pBytes n es := by
        simp [partMatches, hm]
      rw [hcons] at hne hdiff
      have hcond : ¬(pyTruthyOpt (none : Option (List Nat)) = true ∧ (none : Option (List Nat)) ≠ some (e.entity.shaAt i)) := by
        simp [pyTruthyOpt]
      simp only [partLoop, hm, if_neg hcond]
      have hshane : e.entity.shaAt i ≠ [] := hne _ (List.mem_cons_self _ _)
      by_cases hrest : ∃ d ∈ partMatches pBytes n es, d ≠ e.entity.shaAt i
      · exact partLoop_some_ambiguous pBytes n _ es hshane
          (fun x hx => hne x (List.mem_cons_of_mem _ hx)) hrest
      · push_neg at hrest
        exfalso
        rcases hdiff with ⟨d₁, hd₁, d₂, hd₂, hd12⟩
        have h₁ : d₁ = e.entity.shaAt i := by
          rcases List.mem_cons.mp hd₁ with h | h
          · exact h
          · exact hrest d₁ h
        have h₂ : d₂ = e.entity.shaAt i := by
          rcases List.mem_cons.mp hd₂ with h | h
          · exact h
          · exact hrest d₂ h
        exact hd12 (h₁.trans h₂.symm)

/-! Helper lemmas about registry reconciliation. -/

theorem removeFirstEntry_eq_filter (es : List Entry) (f : String)
    (h : (es.map (fun e => e.entity.path)).Nodup) :
    removeFirstEntry es f = es.filter (fun e => decide (e.entity.path ≠ f)) := by
  induction es with
  | nil => rfl
  | cons e es ih =>
    rw [List.map_cons, List.nodup_cons] at h
    by_cases hp : e.entity.path = f
    · have hall : ∀ e' ∈ es, decide (e'.entity.path ≠ f) = true := by
        intro e' he'
        have : e'.entity.path ∈ es.map (fun e => e.entity.path) :=
          List.mem_map_of_mem _ he'
        simp only [decide_eq_true_eq]
        intro hc
        exact h.1 (by rw [hp, ← hc]; exact this)
      simp only [removeFirstEntry, hp, if_true, List.filter_cons]
      rw [if_neg (by simp [hp])]
      exact (List.filter_eq_self.mpr hall).symm
    · simp only [removeFirstEntry, hp, if_false, List.filter_cons]
      rw [if_pos (by simp [hp]), ih h.2]

theorem filter_paths_nodup (es : List Entry) (p : Entry → Bool)
    (h : (es.map (fun e => e.entity.path)).Nodup) :
    ((es.filter p).map (fun e => e.entity.path)).Nodup :=
  List.Nodup.sublist (List.Sublist.map _ (List.filter_sublist es)) h

theorem foldl_removeFirstEntry_eq_filter (fsL : List String) (es : List Entry)
    (h : (es.map (fun e => e.entity.path)).Nodup) :
    fsL.foldl removeFirstEntry es = es.filter (fun e => decide (e.entity.path ∉ fsL)) := by
  induction fsL generalizing es with
  | nil =>
    simp only [List.foldl_nil]
    exact (List.filter_eq_self.mpr (by simp)).symm
  | cons f fsL ih =>
    rw [List.foldl_cons, removeFirstEntry_eq_filter es f h,
      ih _ (filter_paths_nodup es _ h), List.filter_filter]
    refine List.filter_congr ?_
    intro e _
    by_cases h1 : e.entity.path = f
    · simp [h1]
    · by_cases h2 : e.entity.path ∈ fsL <;> simp [h1, h2]

/-! Claim theorems. -/

/-- C8: `allocate_memory(0)` returns a valid empty buffer without
attempting any OS-level mapping; for every `N > 0`, `allocate_memory(N)`
attempts the anonymous read-write mapping and returns a buffer of length
exactly `N`, falling back to a zero-filled heap buffer when the platform
refuses the mapping. -/
theorem allocate_memory_spec (mmapOK : Nat → Bool) (n : Nat) :
    ((allocate_memory mmapOK 0).attemptedMmap = false
      ∧ (allocate_memory mmapOK 0).buf = .heap []
      ∧ (allocate_memory mmapOK 0).buf.length = 0)
    ∧ (0 < n →
        (allocate_memory mmapOK n).attemptedMmap = true
        ∧ (allocate_memory mmapOK n).buf.length = n
        ∧ (mmapOK n = false →
            (allocate_memory mmapOK n).buf = .heap (List.replicate n 0))) := by
  constructor
  · simp [allocate_memory, MemBuffer.length]
  · intro hn
    have h0 : ¬(n = 0) := by omega
    by_cases hm : mmapOK n
    · simp [allocate_memory, h0, hm, MemBuffer.length]
    · simp [allocate_memory, h0, hm, MemBuffer.length]

theorem allocate_memory_spec_witness :
    0 < 3
    ∧ ((allocate_memory (fun _ => false) 3).attemptedMmap = true
       ∧ (allocate_memory (fun _ => false) 3).buf.length = 3
       ∧ ((fun _ => false : Nat → Bool) 3 = false →
           (allocate_memory (fun _ => false) 3).buf = .heap (List.replicate 3 0))) :=
  ⟨by decide, (allocate_memory_spec (fun _ => false) 3).2 (by decide)⟩

/-- C9: calling `commit` or `rollback` on a `LockedFD` on which `open`
was never called raises the usage error rather than being a silent no-op;
once the transaction has been opened and its descriptor released, both
calls are no-ops. -/
theorem end_writing_unopened_spec (isWin : Bool) (l : LockedFD) (fs : FS) :
    (l.write = none →
      LockedFD.commit isWin l fs = ⟨some .usageError, l, fs⟩
      ∧ LockedFD.rollback isWin l fs = ⟨some .usageError, l, fs⟩)
    ∧ (∀ w b, l.write = some w → l.fd = false →
        end_writing isWin l fs b = ⟨none, l, fs⟩) := by
  constructor
  · intro h
    constructor <;> simp [LockedFD.commit, LockedFD.rollback, end_writing, h]
  · intro w b hw hfd
    simp [end_writing, hw, hfd]

theorem end_writing_unopened_spec_witness :
    (LockedFD.commit false ⟨"t", false, none⟩ [] = ⟨some .usageError, ⟨"t", false, none⟩, []⟩
     ∧ LockedFD.rollback false ⟨"t", false, none⟩ [] = ⟨some .usageError, ⟨"t", false, none⟩, []⟩)
    ∧ end_writing false ⟨"t", false, some true⟩ [] true = ⟨none, ⟨"t", false, some true⟩, []⟩ :=
  ⟨(end_writing_unopened_spec false ⟨"t", false, none⟩ []).1 rfl,
   (end_writing_unopened_spec false ⟨"t", false, some true⟩ []).2 true true rfl rfl⟩

/-- C7: `open` may be invoked exactly once per `LockedFD` instance: a
second call, in any mode and whatever the first call's outcome, raises
the usage error and leaves instance and filesystem untouched. -/
theorem open_twice_spec (l : LockedFD) (fs fs' : FS) (w1 w2 : Bool)
    (h : l.write = none) :
    LockedFD.openFD (LockedFD.openFD l fs w1).lfd fs' w2 =
      ⟨some .usageError, (LockedFD.openFD l fs w1).lfd, fs'⟩ := by
  have hw : (LockedFD.openFD l fs w1).lfd.write = some w1 := by
    unfold LockedFD.openFD
    rw [if_neg (by simp [h])]
    dsimp only
    split
    · rfl
    · split
      · rfl
      · split <;> rfl
  generalize (LockedFD.openFD l fs w1).lfd = l2 at hw ⊢
  simp [LockedFD.openFD, hw]

theorem open_twice_spec_witness :
    LockedFD.openFD (LockedFD.openFD ⟨"t", false, none⟩ [] true).lfd [] false =
      ⟨some .usageError, (LockedFD.openFD ⟨"t", false, none⟩ [] true).lfd, []⟩ :=
  open_twice_spec ⟨"t", false, none⟩ [] [] true false rfl

/-- C1 counterexample: a forced refresh that finds no added or removed
pack files (empty registry, empty directory, unchanged mtime) returns
`True`, while the claim demands `False` when the set of registered
entries did not change. -/
theorem update_cache_forced_noop_returns_true :
    (update_cache true ⟨"root", 0, 5, []⟩ ⟨5, []⟩).changed = true
    ∧ (update_cache true ⟨"root", 0, 5, []⟩ ⟨5, []⟩).db.entities = [] :=
  ⟨rfl, rfl⟩

/-- C1 amended: `update_cache(force)` returns `False` (without listing
the directory and without any state change) iff not forced and the root
mtime has not increased past the stored one; in every other case it
lists the directory, reconciles, and returns `True` unconditionally —
even when no pack file was added or removed. -/
theorem update_cache_refresh_spec (force : Bool) (s : PackedDB) (d : Disk) :
    ((force = false ∧ d.mtime ≤ s.st_mtime) →
      update_cache force s d = ⟨false, s, false⟩)
    ∧ ((force = true ∨ s.st_mtime < d.mtime) →
        (update_cache force s d).changed = true
        ∧ (update_cache force s d).listed = true) := by
  constructor
  · intro h
    unfold update_cache
    rw [if_pos h]
  · intro h
    have hcond : ¬(force = false ∧ d.mtime ≤ s.st_mtime) := by
      rcases h with h | h
      · simp [h]
      · intro hc
        omega
    unfold update_cache
    rw [if_neg hcond]
    exact ⟨rfl, rfl⟩

theorem update_cache_refresh_spec_witness :
    (false = false ∧ (5 : Nat) ≤ 5)
    ∧ update_cache false ⟨"r", 0, 5, []⟩ ⟨5, []⟩ = ⟨false, ⟨"r", 0, 5, []⟩, false⟩
    ∧ ((update_cache true ⟨"r", 0, 5, []⟩ ⟨5, []⟩).changed = true
       ∧ (update_cache true ⟨"r", 0, 5, []⟩ ⟨5, []⟩).listed = true) :=
  ⟨⟨rfl, by decide⟩,
   (update_cache_refresh_spec false ⟨"r", 0, 5, []⟩ ⟨5, []⟩).1 ⟨rfl, by decide⟩,
   (update_cache_refresh_spec true ⟨"r", 0, 5, []⟩ ⟨5, []⟩).2 (Or.inl rfl)⟩

theorem pack_info_didSort (s : PackedDB) (sha : List Nat) :
    (pack_info s sha).didSort = decide (s.hit_count % sort_interval = 0) := by
  simp only [pack_info]
  split <;> rfl

/-- C2 counterexample: on a store whose single pack never holds the
queried digest, the first and the second query both re-sort the registry
(the hit counter, which only counts successful resolutions, stays at 0,
and `0 % 500 = 0`), so re-sorting does not happen "exactly on every Nth
query with N = 500". -/
theorem pack_info_sorts_on_consecutive_queries :
    (pack_info ⟨"r", 0, 0, [⟨1, constEntity "p" 1 (.ok none) none []⟩]⟩ [1]).didSort = true
    ∧ (pack_info (pack_info ⟨"r", 0, 0, [⟨1, constEntity "p" 1 (.ok none) none []⟩]⟩ [1]).db
        [1]).didSort = true
    ∧ (pack_info ⟨"r", 0, 0, [⟨1, constEntity "p" 1 (.ok none) none []⟩]⟩ [1]).res
        = .error (.badObject [1]) :=
  ⟨rfl, rfl, rfl⟩

/-- C2 amended: the global counter counts hits (successful resolutions),
not queries; the registry is re-sorted by hit count descending at the
start of any query issued while that counter is a multiple of 500 — so
consecutive failing queries can each re-sort; on a match the matched
cell's counter and the global counter are incremented and the query
returns immediately, the cells after the match untouched and unexamined;
on exhaustion of all entries the query fails with `BadObject` and the
counter is unchanged. -/
theorem pack_info_resolution_spec (s : PackedDB) (sha : List Nat) :
    ((pack_info s sha).didSort = true ↔ s.hit_count % sort_interval = 0)
    ∧ (s.hit_count % sort_interval ≠ 0 →
        ∀ front e back idx, s.entities = front ++ e :: back →
          (∀ e' ∈ front, e'.entity.sha_to_index sha = .ok none) →
          e.entity.sha_to_index sha = .ok (some idx) →
          (pack_info s sha).res = .ok (e.entity, idx)
          ∧ (pack_info s sha).db.hit_count = s.hit_count + 1
          ∧ (pack_info s sha).db.entities = front ++ { e with hits := e.hits + 1 } :: back)
    ∧ ((∀ e ∈ s.entities, e.entity.sha_to_index sha = .ok none) →
        (pack_info s sha).res = .error (.badObject sha)
        ∧ (pack_info s sha).db.hit_count = s.hit_count
        ∧ (pack_info s sha).db.entities =
            (if s.hit_count % sort_interval = 0 then sort_entities s.entities else s.entities))
    ∧ (∀ es, (sort_entities es).Pairwise (fun a b => b.hits ≤ a.hits)) := by
  refine ⟨?_, ?_, ?_, fun es => sort_entities_sorted es⟩
  · rw [pack_info_didSort]
    simp
  · intro h front e back idx hsplit hfront he
    have hd : decide (s.hit_count % sort_interval = 0) = false := by simp [h]
    have hscan := packInfoScan_front_miss_hit sha front back e idx hfront he
    simp only [pack_info, hd, Bool.false_eq_true, if_false, hsplit, hscan]
    exact ⟨trivial, trivial, trivial⟩
  · intro hall
    by_cases hs : s.hit_count % sort_interval = 0
    · have hd : decide (s.hit_count % sort_interval = 0) = true := by simp [hs]
      have hall' : ∀ e ∈ sort_entities s.entities, e.entity.sha_to_index sha = .ok none :=
        fun e he => hall e (mem_sort_entities.mp he)
      have hscan := packInfoScan_all_miss sha _ hall'
      simp only [pack_info, hd, if_true, hscan]
      exact ⟨trivial, trivial, by rw [if_pos hs]⟩
    · have hd : decide (s.hit_count % sort_interval = 0) = false := by simp [hs]
      have hscan := packInfoScan_all_miss sha _ hall
      simp only [pack_info, hd, Bool.false_eq_true, if_false, hscan]
      exact ⟨trivial, trivial, by rw [if_neg hs]⟩

theorem pack_info_resolution_spec_witness :
    (pack_info ⟨"r", 1, 0, [⟨5, constEntity "m" 5 (.ok none) none []⟩,
                            ⟨4, constEntity "h" 4 (.ok (some 3)) none []⟩]⟩ [9]).res
        = .ok (constEntity "h" 4 (.ok (some 3)) none [], 3)
    ∧ (pack_info ⟨"r", 1, 0, [⟨5, constEntity "m" 5 (.ok none) none []⟩,
                              ⟨4, constEntity "h" 4 (.ok (some 3)) none []⟩]⟩ [9]).db.hit_count = 2
    ∧ (pack_info ⟨"r", 1, 0, [⟨5, constEntity "m" 5 (.ok none) none []⟩,
                              ⟨4, constEntity "h" 4 (.ok (some 3)) none []⟩]⟩ [9]).db.entities
        = [⟨5, constEntity "m" 5 (.ok none) none []⟩, ⟨5, constEntity "h" 4 (.ok (some 3)) none []⟩] :=
  (pack_info_resolution_spec
      ⟨"r", 1, 0, [⟨5, constEntity "m" 5 (.ok none) none []⟩,
                   ⟨4, constEntity "h" 4 (.ok (some 3)) none []⟩]⟩ [9]).2.1
    (by decide)
    [⟨5, constEntity "m" 5 (.ok none) none []⟩]
    ⟨4, constEntity "h" 4 (.ok (some 3)) none []⟩ [] 3 rfl
    (by intro e' he'; simp only [List.mem_singleton] at he'; subst he'; rfl)
    rfl

/-- C4 counterexample: on a store whose first entity's index query
raises, and whose second entity does hold the digest, the failure
surfaces to the caller as `entityFailure` instead of being swallowed and
the scan advancing to the second entity. -/
theorem pack_info_entity_failure_surfaces :
    (pack_info ⟨"r", 1, 0, [⟨2, constEntity "a" 2 (.error "io") none []⟩,
                            ⟨1, constEntity "b" 1 (.ok (some 0)) none []⟩]⟩ [7]).res
        = .error (.entityFailure "io")
    ∧ (constEntity "b" 1 (.ok (some 0)) none []).sha_to_index [7] = .ok (some 0) :=
  ⟨rfl, rfl⟩

/-- C4 amended: a failure raised while querying one entity's index
propagates immediately to the caller and aborts the scan (leaving the
global counter unchanged); only a not-found reply advances to the next
entity, and `BadObject` is raised only when every entity replied
not-found. -/
theorem pack_info_failure_propagation_spec (s : PackedDB) (sha : List Nat) :
    (∀ msg front e back,
       s.hit_count % sort_interval ≠ 0 →
       s.entities = front ++ e :: back →
       (∀ e' ∈ front, e'.entity.sha_to_index sha = .ok none) →
       e.entity.sha_to_index sha = .error msg →
       (pack_info s sha).res = .error (.entityFailure msg)
       ∧ (pack_info s sha).db.hit_count = s.hit_count)
    ∧ ((∀ e ∈ s.entities, e.entity.sha_to_index sha = .ok none) →
       (pack_info s sha).res = .error (.badObject sha)) := by
  constructor
  · intro msg front e back h hsplit hfront he
    have hd : decide (s.hit_count % sort_interval = 0) = false := by simp [h]
    have hscan := packInfoScan_front_miss_error sha front back e msg hfront he
    simp only [pack_info, hd, Bool.false_eq_true, if_false, hsplit, hscan]
    exact ⟨trivial, trivial⟩
  · intro hall
    by_cases hs : s.hit_count % sort_interval = 0
    · have hd : decide (s.hit_count % sort_interval = 0) = true := by simp [hs]
      have hall' : ∀ e ∈ sort_entities s.entities, e.entity.sha_to_index sha = .ok none :=
        fun e he => hall e (mem_sort_entities.mp he)
      have hscan := packInfoScan_all_miss sha _ hall'
      simp only [pack_info, hd, if_true, hscan]
    · have hd : decide (s.hit_count % sort_interval = 0) = false := by simp [hs]
      have hscan := packInfoScan_all_miss sha _ hall
      simp only [pack_info, hd, Bool.false_eq_true, if_false, hscan]

theorem pack_info_failure_propagation_spec_witness :
    ((pack_info ⟨"r", 1, 0, [⟨5, constEntity "m" 5 (.ok none) none []⟩,
                             ⟨4, constEntity "f" 4 (.error "io") none []⟩]⟩ [9]).res
        = .error (.entityFailure "io")
     ∧ (pack_info ⟨"r", 1, 0, [⟨5, constEntity "m" 5 (.ok none) none []⟩,
                               ⟨4, constEntity "f" 4 (.error "io") none []⟩]⟩ [9]).db.hit_count = 1)
    ∧ (pack_info ⟨"r", 1, 0, [⟨5, constEntity "m" 5 (.ok none) none []⟩]⟩ [9]).res
        = .error (.badObject [9]) :=
  ⟨(pack_info_failure_propagation_spec
      ⟨"r", 1, 0, [⟨5, constEntity "m" 5 (.ok none) none []⟩,
                   ⟨4, constEntity "f" 4 (.error "io") none []⟩]⟩ [9]).1
      "io" [⟨5, constEntity "m" 5 (.ok none) none []⟩]
      ⟨4, constEntity "f" 4 (.error "io") none []⟩ [] (by decide) rfl
      (by intro e' he'; simp only [List.mem_singleton] at he'; subst he'; rfl) rfl,
   (pack_info_failure_propagation_spec
      ⟨"r", 1, 0, [⟨5, constEntity "m" 5 (.ok none) none []⟩]⟩ [9]).2
      (by intro e' he'; simp only [List.mem_singleton] at he'; subst he'; rfl)⟩

/-- C3: the abbreviated-digest lookup scans every cell; with all matched
digests non-empty (a digest is 20 raw bytes), zero matches raise
`BadObject`, a unique matched digest (possibly found in several
entities) is returned, and two distinct matched digests raise
`AmbiguousObjectName`. -/
theorem partial_to_complete_sha_spec (s : PackedDB) (pBytes : List Nat) (n : Nat)
    (hne : ∀ d ∈ partMatches pBytes n s.entities, d ≠ []) :
    (partMatches pBytes n s.entities = [] →
       partial_to_complete_sha s pBytes n = .error (.badObject pBytes))
    ∧ (∀ d, d ∈ partMatches pBytes n s.entities →
        (∀ x ∈ partMatches pBytes n s.entities, x = d) →
        partial_to_complete_sha s pBytes n = .ok d)
    ∧ (∀ d₁ d₂, d₁ ∈ partMatches pBytes n s.entities →
        d₂ ∈ partMatches pBytes n s.entities → d₁ ≠ d₂ →
        partial_to_complete_sha s pBytes n = .error (.ambiguousObjectName pBytes)) := by
  refine ⟨?_, ?_, ?_⟩
  · intro hemp
    unfold partial_to_complete_sha
    rw [partLoop_none_empty pBytes n s.entities hemp]
    rfl
  · intro d hmem hall
    unfold partial_to_complete_sha
    rw [partLoop_none_all_eq pBytes n d s.entities hmem hall]
    have htr : pyTruthyOpt (some d) = true := by
      have := hne d hmem
      simp [pyTruthyOpt, this]
    simp [htr]
  · intro d₁ d₂ h₁ h₂ h₁₂
    unfold partial_to_complete_sha
    rw [partLoop_none_ambiguous pBytes n s.entities hne ⟨d₁, h₁, d₂, h₂, h₁₂⟩]

/-- The full digest with canonical hex form starting `aaaa…` and ending
`…a1` (20 bytes). -/
def shaA1 : List Nat := List.replicate 19 170 ++ [161]

/-- The full digest with canonical hex form starting `aaaa…` and ending
`…a2` (20 bytes). -/
def shaA2 : List Nat := List.replicate 19 170 ++ [162]

/-- Two entities that both report a slot for the queried abbreviation,
holding distinct full digests that share the abbreviated form. -/
def c3dbAmbig : PackedDB :=
  ⟨"r", 0, 0, [⟨1, constEntity "p1" 1 (.ok none) (some 0) shaA1⟩,
               ⟨1, constEntity "p2" 1 (.ok none) (some 0) shaA2⟩]⟩

/-- Two entities of which only the first reports a slot for the queried
abbreviation. -/
def c3dbUnique : PackedDB :=
  ⟨"r", 0, 0, [⟨1, constEntity "p1" 1 (.ok none) (some 0) shaA1⟩,
               ⟨1, constEntity "p2" 1 (.ok none) none shaA2⟩]⟩

theorem partial_to_complete_sha_spec_witness :
    partial_to_complete_sha c3dbAmbig [170, 170] 4 = .error (.ambiguousObjectName [170, 170])
    ∧ partial_to_complete_sha c3dbUnique [170, 170, 160] 5 = .ok shaA1 :=
  ⟨(partial_to_complete_sha_spec c3dbAmbig [170, 170] 4 (by decide)).2.2 shaA1 shaA2
      (by decide) (by decide) (by decide),
   (partial_to_complete_sha_spec c3dbUnique [170, 170, 160] 5 (by decide)).2.1 shaA1
      (by decide) (by decide)⟩

/-! Scenario lemmas for the locked-file transaction. -/

theorem openFD_write_fresh (p : String) (fs : FS)
    (hlock : fsLookup fs (lockPath p) = none) :
    LockedFD.openFD ⟨p, false, none⟩ fs true =
      ⟨none, ⟨p, true, some true⟩, fsSet fs (lockPath p) ⟨[], 0o600⟩⟩ := by
  simp [LockedFD.openFD, hlock]

theorem lfdWrite_after_open (p : String) (fs : FS) (bytes : List Nat) :
    lfdWrite ⟨p, true, some true⟩ (fsSet fs (lockPath p) ⟨[], 0o600⟩) bytes =
      fsSet (fsSet fs (lockPath p) ⟨[], 0o600⟩) (lockPath p) ⟨bytes, 0o600⟩ := by
  simp [lfdWrite, fsLookup_fsSet_self]

theorem end_writing_closed_noop (isWin : Bool) (p : String) (w : Bool) (g : FS) (b : Bool) :
    end_writing isWin ⟨p, false, some w⟩ g b = ⟨none, ⟨p, false, some w⟩, g⟩ := by
  simp [end_writing]

theorem end_writing_commit_write (isWin : Bool) (p : String) (g : FS) (bytes : List Nat)
    (hg : fsLookup g (lockPath p) = some ⟨bytes, 0o600⟩) :
    (end_writing isWin ⟨p, true, some true⟩ g true).err = none
    ∧ (end_writing isWin ⟨p, true, some true⟩ g true).lfd = ⟨p, false, some true⟩
    ∧ fsLookup (end_writing isWin ⟨p, true, some true⟩ g true).fs p = some ⟨bytes, 0o644⟩
    ∧ fsLookup (end_writing isWin ⟨p, true, some true⟩ g true).fs (lockPath p) = none := by
  have hA : fsLookup (if isWin ∧ (fsLookup g p).isSome then fsErase g p else g)
      (lockPath p) = some ⟨bytes, 0o600⟩ := by
    by_cases h : isWin ∧ (fsLookup g p).isSome
    · rw [if_pos h, fsLookup_fsErase_ne g p (lockPath p) (lockPath_ne p)]
      exact hg
    · rw [if_neg h]
      exact hg
  have hres : end_writing isWin ⟨p, true, some true⟩ g true =
      ⟨none, ⟨p, false, some true⟩,
        fsChmod
          (fsSet
            (fsErase (if isWin ∧ (fsLookup g p).isSome then fsErase g p else g) (lockPath p))
            p ⟨bytes, 0o600⟩)
          p 0o644⟩ := by
    unfold end_writing
    dsimp only
    rw [if_neg (by simp), if_pos ⟨rfl, rfl⟩, hA]
  rw [hres]
  have hC : fsLookup
      (fsSet
        (fsErase (if isWin ∧ (fsLookup g p).isSome then fsErase g p else g) (lockPath p))
        p ⟨bytes, 0o600⟩) p = some ⟨bytes, 0o600⟩ := fsLookup_fsSet_self _ _ _
  unfold fsChmod
  rw [hC]
  refine ⟨rfl, rfl, fsLookup_fsSet_self _ _ _, ?_⟩
  rw [fsLookup_fsSet_ne _ _ _ _ (lockPath_ne p), fsLookup_fsSet_ne _ _ _ _ (lockPath_ne p),
    fsLookup_fsErase_self]

theorem end_writing_rollback_write (isWin : Bool) (p : String) (g : FS) (d : FileData)
    (hg : fsLookup g (lockPath p) = some d) :
    end_writing isWin ⟨p, true, some true⟩ g false =
      ⟨none, ⟨p, false, some true⟩, fsErase g (lockPath p)⟩ := by
  unfold end_writing
  dsimp only
  rw [if_neg (by simp), if_neg (by simp), hg]

/-- The scenario of C5: a fresh transaction on `p` opened for writing,
`bytes` written through the returned descriptor, then committed. -/
def openWriteCommit (isWin : Bool) (p : String) (fs : FS) (bytes : List Nat) : LFDResult :=
  LockedFD.commit isWin (LockedFD.openFD ⟨p, false, none⟩ fs true).lfd
    (lfdWrite (LockedFD.openFD ⟨p, false, none⟩ fs true).lfd
      (LockedFD.openFD ⟨p, false, none⟩ fs true).fs bytes)

/-- The scenario of C6: a fresh transaction on `p` opened for writing,
`bytes` written through the returned descriptor, then rolled back. -/
def openWriteRollback (isWin : Bool) (p : String) (fs : FS) (bytes : List Nat) : LFDResult :=
  LockedFD.rollback isWin (LockedFD.openFD ⟨p, false, none⟩ fs true).lfd
    (lfdWrite (LockedFD.openFD ⟨p, false, none⟩ fs true).lfd
      (LockedFD.openFD ⟨p, false, none⟩ fs true).fs bytes)

/-- C5: a write transaction opened (on a path with no existing lock),
written and committed closes the descriptor, leaves the target holding
exactly the written bytes with mode `0o644` (rename onto the real path,
with the Windows pre-delete when rename cannot overwrite), leaves no
`.lock` file; and committing a read-mode transaction is the same
operation as rolling it back. -/
theorem locked_commit_spec (isWin : Bool) (p : String) (fs : FS) (bytes : List Nat)
    (hlock : fsLookup fs (lockPath p) = none) :
    (LockedFD.openFD ⟨p, false, none⟩ fs true).err = none
    ∧ (openWriteCommit isWin p fs bytes).err = none
    ∧ (openWriteCommit isWin p fs bytes).lfd.fd = false
    ∧ fsLookup (openWriteCommit isWin p fs bytes).fs p = some ⟨bytes, 0o644⟩
    ∧ fsLookup (openWriteCommit isWin p fs bytes).fs (lockPath p) = none
    ∧ (∀ (l : LockedFD) (g : FS), l.write = some false →
        LockedFD.commit isWin l g = LockedFD.rollback isWin l g) := by
  have hopen := openFD_write_fresh p fs hlock
  have hw : openWriteCommit isWin p fs bytes =
      end_writing isWin ⟨p, true, some true⟩
        (fsSet (fsSet fs (lockPath p) ⟨[], 0o600⟩) (lockPath p) ⟨bytes, 0o600⟩) true := by
    unfold openWriteCommit LockedFD.commit
    rw [hopen]
    dsimp only
    rw [lfdWrite_after_open]
  have hg : fsLookup
      (fsSet (fsSet fs (lockPath p) ⟨[], 0o600⟩) (lockPath p) ⟨bytes, 0o600⟩)
      (lockPath p) = some ⟨bytes, 0o600⟩ := fsLookup_fsSet_self _ _ _
  have hmain := end_writing_commit_write isWin p _ bytes hg
  refine ⟨by rw [hopen], ?_, ?_, ?_, ?_, ?_⟩
  · rw [hw]; exact hmain.1
  · rw [hw, hmain.2.1]
  · rw [hw]; exact hmain.2.2.1
  · rw [hw]; exact hmain.2.2.2
  · intro l g hl
    unfold LockedFD.commit LockedFD.rollback end_writing
    rw [hl]
    dsimp only
    by_cases hfd : l.fd = false
    · rw [if_pos hfd, if_pos hfd]
    · rw [if_neg hfd, if_neg hfd, if_neg (by simp), if_neg (by simp)]

theorem locked_commit_spec_witness :
    fsLookup (openWriteCommit false "f" [("f", ⟨[9], 420⟩)] [1, 2]).fs "f"
        = some ⟨[1, 2], 0o644⟩
    ∧ fsLookup (openWriteCommit false "f" [("f", ⟨[9], 420⟩)] [1, 2]).fs (lockPath "f")
        = none :=
  ⟨(locked_commit_spec false "f" [("f", ⟨[9], 420⟩)] [1, 2] (by decide)).2.2.2.1,
   (locked_commit_spec false "f" [("f", ⟨[9], 420⟩)] [1, 2] (by decide)).2.2.2.2.1⟩

/-- C6: a write transaction opened, written and rolled back leaves the
target exactly as before (present or absent), discards the written
bytes with the lock file, and leaves no `.lock` file; after the first
`commit`/`rollback` both calls are no-ops; and abandoning the open
instance (`__del__`) performs the rollback itself, so no lock leaks. -/
theorem locked_rollback_spec (isWin : Bool) (p : String) (fs : FS) (bytes : List Nat)
    (hlock : fsLookup fs (lockPath p) = none) :
    (openWriteRollback isWin p fs bytes).err = none
    ∧ (openWriteRollback isWin p fs bytes).lfd.fd = false
    ∧ fsLookup (openWriteRollback isWin p fs bytes).fs p = fsLookup fs p
    ∧ fsLookup (openWriteRollback isWin p fs bytes).fs (lockPath p) = none
    ∧ (∀ b, end_writing isWin (openWriteRollback isWin p fs bytes).lfd
          (openWriteRollback isWin p fs bytes).fs b
        = ⟨none, (openWriteRollback isWin p fs bytes).lfd, (openWriteRollback isWin p fs bytes).fs⟩)
    ∧ (∀ b, end_writing isWin (openWriteCommit isWin p fs bytes).lfd
          (openWriteCommit isWin p fs bytes).fs b
        = ⟨none, (openWriteCommit isWin p fs bytes).lfd, (openWriteCommit isWin p fs bytes).fs⟩)
    ∧ (LockedFD.openFD ⟨p, false, none⟩ fs true).lfd.fd = true
    ∧ lfdDel isWin (LockedFD.openFD ⟨p, false, none⟩ fs true).lfd
        (lfdWrite (LockedFD.openFD ⟨p, false, none⟩ fs true).lfd
          (LockedFD.openFD ⟨p, false, none⟩ fs true).fs bytes)
      = openWriteRollback isWin p fs bytes := by
  have hopen := openFD_write_fresh p fs hlock
  have hw : openWriteRollback isWin p fs bytes =
      end_writing isWin ⟨p, true, some true⟩
        (fsSet (fsSet fs (lockPath p) ⟨[], 0o600⟩) (lockPath p) ⟨bytes, 0o600⟩) false := by
    unfold openWriteRollback LockedFD.rollback
    rw [hopen]
    dsimp only
    rw [lfdWrite_after_open]
  have hg : fsLookup
      (fsSet (fsSet fs (lockPath p) ⟨[], 0o600⟩) (lockPath p) ⟨bytes, 0o600⟩)
      (lockPath p) = some ⟨bytes, 0o600⟩ := fsLookup_fsSet_self _ _ _
  have hroll := end_writing_rollback_write isWin p _ ⟨bytes, 0o600⟩ hg
  have hwC : openWriteCommit isWin p fs bytes =
      end_writing isWin ⟨p, true, some true⟩
        (fsSet (fsSet fs (lockPath p) ⟨[], 0o600⟩) (lockPath p) ⟨bytes, 0o600⟩) true := by
    unfold openWriteCommit LockedFD.commit
    rw [hopen]
    dsimp only
    rw [lfdWrite_after_open]
  have hmainC := end_writing_commit_write isWin p _ bytes hg
  refine ⟨?_, ?_, ?_, ?_, ?_, ?_, ?_, ?_⟩
  · rw [hw, hroll]
  · rw [hw, hroll]
  · rw [hw, hroll]
    dsimp only
    rw [fsLookup_fsErase_ne _ _ _ (target_ne_lockPath p),
      fsLookup_fsSet_ne _ _ _ _ (target_ne_lockPath p),
      fsLookup_fsSet_ne _ _ _ _ (target_ne_lockPath p)]
  · rw [hw, hroll]
    dsimp only
    exact fsLookup_fsErase_self _ _
  · intro b
    rw [hw, hroll]
    exact end_writing_closed_noop isWin p true _ b
  · intro b
    rw [hwC, hmainC.2.1]
    exact end_writing_closed_noop isWin p true _ b
  · rw [hopen]
  · unfold openWriteRollback
    rw [hopen]
    dsimp only
    rw [lfdWrite_after_open]
    simp [lfdDel]

theorem locked_rollback_spec_witness :
    fsLookup (openWriteRollback false "f" [("f", ⟨[9], 420⟩)] [1, 2]).fs "f"
        = some ⟨[9], 420⟩
    ∧ fsLookup (openWriteRollback false "f" [("f", ⟨[9], 420⟩)] [1, 2]).fs (lockPath "f")
        = none :=
  ⟨((locked_rollback_spec false "f" [("f", ⟨[9], 420⟩)] [1, 2] (by decide)).2.2.1).trans
      (by decide),
   (locked_rollback_spec false "f" [("f", ⟨[9], 420⟩)] [1, 2] (by decide)).2.2.2.1⟩

theorem update_cache_entities_eq (force : Bool) (s : PackedDB) (d : Disk)
    (hcond : ¬(force = false ∧ d.mtime ≤ s.st_mtime)) :
    (update_cache force s d).db.entities = sort_entities
      ((((s.entities.map (fun e => e.entity.path)).filter
           (fun f => decide (f ∉ d.packs.map (fun p => p.path)))).dedup).foldl
        removeFirstEntry
        (s.entities
         ++ (d.packs.filter
              (fun p => decide (p.path ∉ s.entities.map (fun e => e.entity.path)))).map
            (fun p => ⟨p.packSize, p⟩))) := by
  unfold update_cache
  rw [if_neg hcond]

/-- C10: when a refresh proceeds to reconciliation, registry cells whose
pack file is still on disk are kept verbatim (same hit counter, same
entity handle), cells whose file vanished are removed, and each newly
discovered file contributes one fresh cell seeded with its pack size:
the resulting registry is a permutation of "kept cells ++ fresh cells"
(the permutation being the final hit-count re-sort). -/
theorem update_cache_preserves_entries (force : Bool) (s : PackedDB) (d : Disk)
    (hproceed : force = true ∨ s.st_mtime < d.mtime)
    (hsn : (s.entities.map (fun e => e.entity.path)).Nodup)
    (hdn : (d.packs.map (fun p => p.path)).Nodup) :
    List.Perm (update_cache force s d).db.entities
      (s.entities.filter (fun e => decide (e.entity.path ∈ d.packs.map (fun p => p.path)))
       ++ (d.packs.filter
            (fun p => decide (p.path ∉ s.entities.map (fun e => e.entity.path)))).map
          (fun p => ⟨p.packSize, p⟩)) := by
  have hcond : ¬(force = false ∧ d.mtime ≤ s.st_mtime) := by
    rcases hproceed with h | h
    · simp [h]
    · intro hc
      omega
  rw [update_cache_entities_eq force s d hcond]
  set packFiles := d.packs.map (fun p => p.path) with hpf
  set ourFiles := s.entities.map (fun e => e.entity.path) with hof
  set newEnts := (d.packs.filter (fun p => decide (p.path ∉ ourFiles))).map
      (fun p => (⟨p.packSize, p⟩ : Entry)) with hnewe
  set removed := (ourFiles.filter (fun f => decide (f ∉ packFiles))).dedup with hrm
  have hnewpaths : newEnts.map (fun e => e.entity.path)
      = (d.packs.filter (fun p => decide (p.path ∉ ourFiles))).map (fun p => p.path) := by
    rw [hnewe, List.map_map]
    rfl
  have hnewnodup : (newEnts.map (fun e => e.entity.path)).Nodup := by
    rw [hnewpaths]
    exact List.Nodup.sublist (List.Sublist.map _ (List.filter_sublist _)) hdn
  have hdisj : ∀ x ∈ ourFiles, x ∉ newEnts.map (fun e => e.entity.path) := by
    intro x hx
    rw [hnewpaths]
    intro hmem
    rcases List.mem_map.mp hmem with ⟨pp, hpp, hppx⟩
    rcases List.mem_filter.mp hpp with ⟨hpd, hdec⟩
    rw [decide_eq_true_eq] at hdec
    exact hdec (hppx ▸ hx)
  have hents1 : ((s.entities ++ newEnts).map (fun e => e.entity.path)).Nodup := by
    rw [List.map_append]
    exact List.nodup_append.mpr ⟨hsn, hnewnodup, fun a ha hb => hdisj a ha hb⟩
  rw [foldl_removeFirstEntry_eq_filter removed (s.entities ++ newEnts) hents1,
    List.filter_append]
  have hkeepnew : newEnts.filter (fun e => decide (e.entity.path ∉ removed)) = newEnts := by
    apply List.filter_eq_self.mpr
    intro e hemem
    rw [decide_eq_true_eq]
    intro hrem
    have hsub : e.entity.path ∈ ourFiles := by
      rw [hrm] at hrem
      exact (List.mem_filter.mp (List.mem_dedup.mp hrem)).1
    exact hdisj _ hsub (List.mem_map_of_mem _ hemem)
  have hcongr : s.entities.filter (fun e => decide (e.entity.path ∉ removed))
      = s.entities.filter (fun e => decide (e.entity.path ∈ packFiles)) := by
    apply List.filter_congr
    intro e hemem
    have hin : e.entity.path ∈ ourFiles := List.mem_map_of_mem _ hemem
    by_cases hp : e.entity.path ∈ packFiles
    · have hnotrem : e.entity.path ∉ removed := by
        rw [hrm]
        intro hmem
        have h2 := (List.mem_filter.mp (List.mem_dedup.mp hmem)).2
        rw [decide_eq_true_eq] at h2
        exact h2 hp
      simp [hnotrem, hp]
    · have hisrem : e.entity.path ∈ removed := by
        rw [hrm]
        exact List.mem_dedup.mpr (List.mem_filter.mpr ⟨hin, by simp [hp]⟩)
      simp [hisrem, hp]
  rw [hkeepnew, hcongr]
  exact sort_entities_perm _

theorem update_cache_preserves_entries_witness :
    List.Perm
      (update_cache true
        ⟨"r", 0, 0, [⟨7, constEntity "a" 5 (.ok none) none []⟩,
                     ⟨3, constEntity "b" 3 (.ok none) none []⟩]⟩
        ⟨1, [constEntity "a" 5 (.ok none) none [], constEntity "c" 9 (.ok none) none []]⟩).db.entities
      (([⟨7, constEntity "a" 5 (.ok none) none []⟩,
         ⟨3, constEntity "b" 3 (.ok none) none []⟩] : List Entry).filter
          (fun e => decide (e.entity.path ∈
            ([constEntity "a" 5 (.ok none) none [],
              constEntity "c" 9 (.ok none) none []] : List PackEntityM).map (fun p => p.path)))
       ++ (([constEntity "a" 5 (.ok none) none [],
             constEntity "c" 9 (.ok none) none []] : List PackEntityM).filter
            (fun p => decide (p.path ∉
              ([⟨7, constEntity "a" 5 (.ok none) none []⟩,
                ⟨3, constEntity "b" 3 (.ok none) none []⟩] : List Entry).map
                (fun e => e.entity.path)))).map
          (fun p => ⟨p.packSize, p⟩)) :=
  update_cache_preserves_entries true
    ⟨"r", 0, 0, [⟨7, constEntity "a" 5 (.ok none) none []⟩,
                 ⟨3, constEntity "b" 3 (.ok none) none []⟩]⟩
    ⟨1, [constEntity "a" 5 (.ok none) none [], constEntity "c" 9 (.ok none) none []]⟩
    (Or.inl rfl) (by decide) (by decide)

end Gitdb










